import Mathlib

/-!
Verification of the windowed person/location co-occurrence aggregator of
`src/entity_extraction/person_entity_extraction.py`.

Python dictionaries are modelled as association lists (`List (key × value)`)
that keep insertion order, matching CPython's ordered-dict semantics; the
sentinel `-1` values of the window search are modelled with `Int`.
-/

/-- One token span as produced by the tokenizer: `((start, end), text)`,
mirroring the Python tuples stored in `token_spans`. -/
abbrev TokenSpan := (Nat × Nat) × String

/-- Default token used by `List.getD`; every access in the code is guarded by
an index bound, so the default is never observed. -/
def d0 : TokenSpan := ((0, 0), "")

/-- `token_spans[i][0][0]`: start offset of the `i`-th token. -/
def tokStart (tokens : List TokenSpan) (i : Nat) : Nat :=
  (tokens.getD i d0).1.1

/-- `token_spans[i][0][1]`: end offset of the `i`-th token. -/
def tokEnd (tokens : List TokenSpan) (i : Nat) : Nat :=
  (tokens.getD i d0).1.2

/-- Body of `if search_start_span < 0 and token[0][0] == person_span[0]` in
`accumulate_locations_near_person`: resolve the lower window bound at token
index `i` (window `w`, person start `ps`). -/
def stepSS (tokens : List TokenSpan) (w ps : Nat) (i : Nat) (ss : Int) : Int :=
  if ss < 0 ∧ tokStart tokens i = ps then
    if (i : Int) - (w : Int) < 0 then 0 else (tokStart tokens (i - w) : Int)
  else ss

/-- Body of `if search_end_span < 0 and token[0][1] == person_span[1]`:
resolve the upper window bound at token index `i`. -/
def stepSE (tokens : List TokenSpan) (w pe : Nat) (i : Nat) (se : Int) : Int :=
  if se < 0 ∧ tokEnd tokens i = pe then
    if tokens.length ≤ i + w then ((tokens.getLastD d0).1.2 : Int)
    else (tokEnd tokens (i + w) : Int)
  else se

/-- The `for i, token in enumerate(token_spans)` loop of
`accumulate_locations_near_person`, including its early
`if search_start_span >= 0 and search_end_span > 0: break`. -/
def windowGo (tokens : List TokenSpan) (w ps pe : Nat) :
    List Nat → Int × Int → Int × Int
  | [], st => st
  | i :: rest, (ss, se) =>
    let ss' := stepSS tokens w ps i ss
    let se' := stepSE tokens w pe i se
    if 0 ≤ ss' ∧ 0 < se' then (ss', se')
    else windowGo tokens w ps pe rest (ss', se')

/-- The per-mention window computation of `accumulate_locations_near_person`
(lines 143–159): `search_start_span`/`search_end_span` start at `-1`, with the
`if person_span[0] == 0: search_start_span = 0` shortcut, then the token scan. -/
def computeWindow (tokens : List TokenSpan) (w : Nat) (ps pe : Nat) : Int × Int :=
  windowGo tokens w ps pe (List.range tokens.length)
    ((if ps = 0 then 0 else -1), -1)

/-- Python's `key in dict` over an association list. -/
def hasKeyA {α : Type} : List (String × α) → String → Bool
  | [], _ => false
  | p :: rest, k => p.1 == k || hasKeyA rest k

/-- Count stored for key `L` in a location-count dict (0 when absent). -/
def lookup1 : List (String × Nat) → String → Nat
  | [], _ => 0
  | p :: rest, L => if p.1 = L then p.2 else lookup1 rest L

/-- `if loc not in d: d[loc] = 1 else: d[loc] += 1` on an association list. -/
def incLoc (m : List (String × Nat)) (loc : String) : List (String × Nat) :=
  if hasKeyA m loc then m.map (fun p => if p.1 = loc then (p.1, p.2 + 1) else p)
  else m ++ [(loc, 1)]

/-- The containment test `search_start_span <= loc_span[0] < search_end_span`. -/
def inWin (ss se : Int) (s : Nat) : Bool :=
  decide (ss ≤ (s : Int) ∧ (s : Int) < se)

/-- The `for loc, loc_span_list in location_dict.items()` loop of
`accumulate_locations_near_person` (lines 160–168) for one person mention:
`acc` is the person's optional `'location'` sub-dict (`none` while the key
is absent, created on the first match). -/
def addLocsForMention (location_dict : List (String × List (Nat × Nat)))
    (ss se : Int) (acc : Option (List (String × Nat))) :
    Option (List (String × Nat)) :=
  location_dict.foldl
    (fun a p =>
      p.2.foldl
        (fun a2 sp =>
          if inWin ss se sp.1 then some (incLoc (a2.getD []) p.1) else a2)
        a)
    acc

/-- Value stored under one person key: the `'spans'` list and the optional
`'location'` sub-dict. -/
structure PersonData where
  spans : List (Nat × Nat)
  location : Option (List (String × Nat))
deriving Repr, DecidableEq

/-- Processing of one `person_span` (window computation followed by the
location scan). -/
def processSpan (tokens : List TokenSpan)
    (location_dict : List (String × List (Nat × Nat))) (w : Nat)
    (acc : Option (List (String × Nat))) (sp : Nat × Nat) :
    Option (List (String × Nat)) :=
  addLocsForMention location_dict (computeWindow tokens w sp.1 sp.2).1
    (computeWindow tokens w sp.1 sp.2).2 acc

/-- The `for person_span in spans['spans']` loop for one person entry. -/
def processPerson (tokens : List TokenSpan)
    (location_dict : List (String × List (Nat × Nat))) (w : Nat)
    (pd : PersonData) : PersonData :=
  { spans := pd.spans
    location := pd.spans.foldl (processSpan tokens location_dict w) pd.location }

/-- `accumulate_locations_near_person` (lines 130–169): the outer
`for person, spans in people_dict.items()` loop; only the current person's
entry is updated, so the dict traversal is a map over the entries. -/
def accumulate_locations_near_person (people_dict : List (String × PersonData))
    (location_dict : List (String × List (Nat × Nat)))
    (token_spans : List TokenSpan) (lookup_location_by : Nat) :
    List (String × PersonData) :=
  people_dict.map
    (fun p => (p.1, processPerson token_spans location_dict lookup_location_by p.2))

/-- One `{'name': ..., 'count': ...}` entry of `associated_places`. -/
structure PlaceOut where
  name : String
  count : Nat
deriving Repr, DecidableEq

/-- One entry of the ranked people list. -/
structure PersonOut where
  name : String
  count : Nat
  associated_places : List PlaceOut
deriving Repr, DecidableEq

/-- Stable descending insertion: `x` goes in front of the first element whose
count is at most `count x`. -/
def insertCD {α : Type} (count : α → Nat) (x : α) : List α → List α
  | [] => [x]
  | y :: ys => if count y ≤ count x then x :: y :: ys else y :: insertCD count x ys

/-- Python's `sorted(l, key=lambda d: d['count'], reverse=True)`: a stable
sort, descending on `count` (CPython's sort is documented stable; any stable
sort is observationally equal to it). -/
def sortCD {α : Type} (count : α → Nat) (l : List α) : List α :=
  l.foldr (insertCD count) []

/-- The `if 'location' in value` branch of `get_people_places_details`
(lines 81–87): build and sort `place_detail_list`, `[]` when the key is
absent. -/
def placesOf (pd : PersonData) : List PlaceOut :=
  match pd.location with
  | none => []
  | some m => sortCD PlaceOut.count (m.map fun q => { name := q.1, count := q.2 })

/-- Body of the `for person, value in people_dict.items()` loop of
`get_people_places_details` (lines 78–89): one output record. -/
def mkEntry (p : String × PersonData) : PersonOut :=
  { name := p.1, count := p.2.spans.length, associated_places := placesOf p.2 }

/-- The ranking part of `get_people_places_details` (lines 77–91): build the
records, then the final stable descending sort on `count`. -/
def rankPeople (people_dict : List (String × PersonData)) : List PersonOut :=
  sortCD PersonOut.count (people_dict.map mkEntry)

/-- One entity as delivered by the external NLP model:
`(text, label_, start_char, end_char)`. -/
structure Entity where
  text : String
  label : String
  start_char : Nat
  end_char : Nat
deriving Repr, DecidableEq

/-- The `PERSON` branch of `extract_person_location_entities` (lines 118–122):
first mention creates `{'spans': [span]}` (no `'location'` key), later
mentions append to `'spans'`. -/
def addPersonEntity (people : List (String × PersonData)) (e : Entity) :
    List (String × PersonData) :=
  if hasKeyA people e.text then
    people.map (fun p =>
      if p.1 = e.text then
        (p.1, { p.2 with spans := p.2.spans ++ [(e.start_char, e.end_char)] })
      else p)
  else people ++ [(e.text, { spans := [(e.start_char, e.end_char)], location := none })]

/-- The `GPE` branch of `extract_person_location_entities` (lines 123–127). -/
def addLocationEntity (locs : List (String × List (Nat × Nat))) (e : Entity) :
    List (String × List (Nat × Nat)) :=
  if hasKeyA locs e.text then
    locs.map (fun p =>
      if p.1 = e.text then (p.1, p.2 ++ [(e.start_char, e.end_char)]) else p)
  else locs ++ [(e.text, [(e.start_char, e.end_char)])]

/-- `extract_person_location_entities` (lines 108–128): fold over
`spacy_doc.ents`, returning `(location_dict, people_dict)`. -/
def extract_person_location_entities (ents : List Entity) :
    List (String × List (Nat × Nat)) × List (String × PersonData) :=
  ents.foldl
    (fun acc e =>
      if e.label = "PERSON" then (acc.1, addPersonEntity acc.2 e)
      else if e.label = "GPE" then (addLocationEntity acc.1 e, acc.2)
      else acc)
    ([], [])

/-- The part of `get_people_places_details` downstream of the NLP call
(lines 72–91), taking the token spans and the entity list the external model
produced for the document. -/
def get_people_places_details (token_spans : List TokenSpan) (ents : List Entity)
    (lookup_location_by : Nat) : List PersonOut :=
  let extracted := extract_person_location_entities ents
  rankPeople
    (accumulate_locations_near_person extracted.2 extracted.1 token_spans
      lookup_location_by)

/-- One spacy token: its text and its trailing whitespace
(`text_with_ws = text ++ ws`). -/
structure SpacyTok where
  text : String
  ws : String
deriving Repr, DecidableEq

/-- The loop of `get_all_tokens` (lines 100–106), carrying `prev_span`
(initially `-1`): each token gets the span
`(prev_span + 1, prev_span + len(text_with_ws))`. -/
def tokensGo (prev : Int) : List SpacyTok → List ((Int × Int) × String)
  | [] => []
  | t :: ts =>
    let e := prev + ((t.text ++ t.ws).length : Int)
    ((prev + 1, e), t.text) :: tokensGo e ts

/-- `get_all_tokens` (lines 93–106). -/
def get_all_tokens (toks : List SpacyTok) : List ((Int × Int) × String) :=
  tokensGo (-1) toks

/-- A value held by a request/response dict field: caller-supplied metadata
(opaque strings) or the computed `people` list. -/
inductive FieldValue where
  | str : String → FieldValue
  | people : List PersonOut → FieldValue
deriving Repr, DecidableEq

/-- `PersonInfoRequest`: a `url` plus arbitrary extra fields
(`Extra.allow`). -/
structure PersonInfoRequest where
  url : String
  extras : List (String × FieldValue)
deriving Repr, DecidableEq

/-- The uniform error envelope `CommonResponse(status_code, message)`. -/
structure CommonResponse where
  status_code : Nat
  message : String
deriving Repr, DecidableEq

/-- `person_info_request.dict()`: the declared `url` field followed by the
extra fields. -/
def reqDict (req : PersonInfoRequest) : List (String × FieldValue) :=
  ("url", FieldValue.str req.url) :: req.extras

/-- Python dict assignment `d[k] = v` on an association list: replace in
place when the key exists, append otherwise. -/
def dictSet (d : List (String × FieldValue)) (k : String) (v : FieldValue) :
    List (String × FieldValue) :=
  if hasKeyA d k then d.map (fun p => if p.1 = k then (p.1, v) else p)
  else d ++ [(k, v)]

/-- `d.get(k)` on an association list. -/
def dictGet (d : List (String × FieldValue)) (k : String) : Option FieldValue :=
  match d with
  | [] => none
  | p :: rest => if p.1 = k then some p.2 else dictGet rest k

/-- `get_all_people_details` (lines 22–36): fetch (modelled as a caller-supplied
function, like the NLP tokenizer and entity recogniser), then
`response_dict = request.dict(); response_dict['people'] = ...`. -/
def get_all_people_details (fetch : String → Except CommonResponse String)
    (nlpTokens : String → List TokenSpan) (nlpEnts : String → List Entity)
    (req : PersonInfoRequest) :
    Except CommonResponse (List (String × FieldValue)) :=
  match fetch req.url with
  | Except.error e => Except.error e
  | Except.ok text =>
      Except.ok
        (dictSet (reqDict req) "people"
          (FieldValue.people (get_people_places_details (nlpTokens text) (nlpEnts text) 100)))

/-- Well-formed token sequence, as produced by the tokenizer for a real
document (spec §3, §6a): the first token starts at offset 0 and the start and
end offsets are strictly increasing along the sequence. -/
def TokensWF (tokens : List TokenSpan) : Prop :=
  (tokens ≠ [] → tokStart tokens 0 = 0) ∧
  List.Pairwise (fun a b : TokenSpan => a.1.1 < b.1.1 ∧ a.1.2 < b.1.2) tokens

/-- Weakly monotone token offsets (all that window monotonicity needs). -/
def TokensMono (tokens : List TokenSpan) : Prop :=
  List.Pairwise (fun a b : TokenSpan => a.1.1 ≤ b.1.1 ∧ a.1.2 ≤ b.1.2) tokens

/-- Index of the first token whose range starts at `ps` (the one the scan of
`accumulate_locations_near_person` resolves the lower bound at). -/
def firstStartIdx (tokens : List TokenSpan) (ps : Nat) : Option Nat :=
  (List.range tokens.length).find? (fun i => tokStart tokens i == ps)

/-- Index of the first token whose range ends at `pe`. -/
def firstEndIdx (tokens : List TokenSpan) (pe : Nat) : Option Nat :=
  (List.range tokens.length).find? (fun i => tokEnd tokens i == pe)

/-- Closed form of the resolved `search_start_span`. -/
def ssOf (tokens : List TokenSpan) (w ps : Nat) : Int :=
  if ps = 0 then 0
  else
    match firstStartIdx tokens ps with
    | none => -1
    | some i => if (i : Int) - (w : Int) < 0 then 0 else (tokStart tokens (i - w) : Int)

/-- Closed form of the resolved `search_end_span`. -/
def seOf (tokens : List TokenSpan) (w pe : Nat) : Int :=
  match firstEndIdx tokens pe with
  | none => -1
  | some i =>
    if tokens.length ≤ i + w then ((tokens.getLastD d0).1.2 : Int)
    else (tokEnd tokens (i + w) : Int)

/-- Number of mentions of location `L` in `location_dict` whose start offset
lies in the half-open window `[ss, se)`. -/
def matchCount (location_dict : List (String × List (Nat × Nat))) (L : String)
    (ss se : Int) : Nat :=
  (location_dict.map
    (fun p => if p.1 = L then p.2.countP (fun sp => inWin ss se sp.1) else 0)).sum

/-- Count stored for `L` in an optional location dict (`0` when the
`'location'` key is absent or `L` unknown). -/
def lookupCountO (acc : Option (List (String × Nat))) (L : String) : Nat :=
  lookup1 (acc.getD []) L

/-- Total number of `(person mention, location mention)` pairs, over a list of
person mention spans, whose containment test succeeds for location `L`. -/
def mentionPairCount (tokens : List TokenSpan)
    (location_dict : List (String × List (Nat × Nat))) (w : Nat)
    (spans : List (Nat × Nat)) (L : String) : Nat :=
  (spans.map
    (fun sp =>
      matchCount location_dict L (computeWindow tokens w sp.1 sp.2).1
        (computeWindow tokens w sp.1 sp.2).2)).sum

/-! ### Characterising the window scan -/

/-- Once `search_start_span` is non-negative it is never reassigned. -/
theorem stepSS_of_nonneg {tokens : List TokenSpan} {w ps i : Nat} {ss : Int}
    (h : 0 ≤ ss) : stepSS tokens w ps i ss = ss := by
  unfold stepSS
  rw [if_neg]
  rintro ⟨h1, -⟩
  omega

/-- Once `search_end_span` is non-negative it is never reassigned. -/
theorem stepSE_of_nonneg {tokens : List TokenSpan} {w pe i : Nat} {se : Int}
    (h : 0 ≤ se) : stepSE tokens w pe i se = se := by
  unfold stepSE
  rw [if_neg]
  rintro ⟨h1, -⟩
  omega

/-- The lower-bound updates of the scan, without the early break. -/
def foldSS (tokens : List TokenSpan) (w ps : Nat) : List Nat → Int → Int
  | [], ss => ss
  | i :: rest, ss => foldSS tokens w ps rest (stepSS tokens w ps i ss)

/-- The upper-bound updates of the scan, without the early break. -/
def foldSE (tokens : List TokenSpan) (w pe : Nat) : List Nat → Int → Int
  | [], se => se
  | i :: rest, se => foldSE tokens w pe rest (stepSE tokens w pe i se)

theorem foldSS_of_nonneg {tokens : List TokenSpan} {w ps : Nat} {ss : Int}
    (idxs : List Nat) (h : 0 ≤ ss) : foldSS tokens w ps idxs ss = ss := by
  induction idxs with
  | nil => rfl
  | cons i rest ih => rw [foldSS, stepSS_of_nonneg h, ih]

theorem foldSE_of_nonneg {tokens : List TokenSpan} {w pe : Nat} {se : Int}
    (idxs : List Nat) (h : 0 ≤ se) : foldSE tokens w pe idxs se = se := by
  induction idxs with
  | nil => rfl
  | cons i rest ih => rw [foldSE, stepSE_of_nonneg h, ih]

/-- The early `break` of the scan never changes the outcome: once both bounds
are set neither step can fire again, so the loop computes the two bound
searches independently. -/
theorem windowGo_eq_folds (tokens : List TokenSpan) (w ps pe : Nat)
    (idxs : List Nat) (ss se : Int) :
    windowGo tokens w ps pe idxs (ss, se) =
      (foldSS tokens w ps idxs ss, foldSE tokens w pe idxs se) := by
  induction idxs generalizing ss se with
  | nil => rfl
  | cons i rest ih =>
    rw [windowGo, foldSS, foldSE]
    by_cases hbr : 0 ≤ stepSS tokens w ps i ss ∧ 0 < stepSE tokens w pe i se
    · rw [if_pos hbr, foldSS_of_nonneg rest hbr.1, foldSE_of_nonneg rest (le_of_lt hbr.2)]
    · rw [if_neg hbr, ih]

/-- The value `search_start_span` receives when the scan fires at index `i`. -/
def ssFire (tokens : List TokenSpan) (w i : Nat) : Int :=
  if (i : Int) - (w : Int) < 0 then 0 else (tokStart tokens (i - w) : Int)

/-- The value `search_end_span` receives when the scan fires at index `i`. -/
def seFire (tokens : List TokenSpan) (w i : Nat) : Int :=
  if tokens.length ≤ i + w then ((tokens.getLastD d0).1.2 : Int)
  else (tokEnd tokens (i + w) : Int)

theorem ssFire_nonneg (tokens : List TokenSpan) (w i : Nat) :
    0 ≤ ssFire tokens w i := by
  unfold ssFire; split <;> positivity

theorem seFire_nonneg (tokens : List TokenSpan) (w i : Nat) :
    0 ≤ seFire tokens w i := by
  unfold seFire; split <;> positivity

theorem foldSS_char (tokens : List TokenSpan) (w ps : Nat) (idxs : List Nat)
    {ss : Int} (h : ss < 0) :
    foldSS tokens w ps idxs ss =
      match idxs.find? (fun i => tokStart tokens i == ps) with
      | none => ss
      | some i => ssFire tokens w i := by
  induction idxs with
  | nil => rfl
  | cons i rest ih =>
    rw [foldSS, List.find?]
    by_cases hm : tokStart tokens i = ps
    · have hstep : stepSS tokens w ps i ss = ssFire tokens w i := by
        unfold stepSS ssFire
        rw [if_pos ⟨h, hm⟩]
      rw [hstep, foldSS_of_nonneg rest (ssFire_nonneg tokens w i)]
      simp [hm]
    · have hstep : stepSS tokens w ps i ss = ss := by
        unfold stepSS
        rw [if_neg (by rintro ⟨-, hc⟩; exact hm hc)]
      rw [hstep, ih]
      have : (tokStart tokens i == ps) = false := by simp [hm]
      rw [this]

theorem foldSE_char (tokens : List TokenSpan) (w pe : Nat) (idxs : List Nat)
    {se : Int} (h : se < 0) :
    foldSE tokens w pe idxs se =
      match idxs.find? (fun i => tokEnd tokens i == pe) with
      | none => se
      | some i => seFire tokens w i := by
  induction idxs with
  | nil => rfl
  | cons i rest ih =>
    rw [foldSE, List.find?]
    by_cases hm : tokEnd tokens i = pe
    · have hstep : stepSE tokens w pe i se = seFire tokens w i := by
        unfold stepSE seFire
        rw [if_pos ⟨h, hm⟩]
      rw [hstep, foldSE_of_nonneg rest (seFire_nonneg tokens w i)]
      simp [hm]
    · have hstep : stepSE tokens w pe i se = se := by
        unfold stepSE
        rw [if_neg (by rintro ⟨-, hc⟩; exact hm hc)]
      rw [hstep, ih]
      have : (tokEnd tokens i == pe) = false := by simp [hm]
      rw [this]

/-- Closed form of the whole per-mention window computation: the code resolves
each bound at the first token index whose boundary matches (with the
`person_span[0] == 0` shortcut) and leaves the `-1` sentinel otherwise. -/
theorem computeWindow_eq (tokens : List TokenSpan) (w ps pe : Nat) :
    computeWindow tokens w ps pe = (ssOf tokens w ps, seOf tokens w pe) := by
  unfold computeWindow ssOf seOf firstStartIdx firstEndIdx
  rw [windowGo_eq_folds]
  by_cases hps : ps = 0
  · rw [if_pos hps, if_pos hps, foldSS_of_nonneg _ le_rfl,
      foldSE_char _ _ _ _ (by norm_num)]
    rfl
  · rw [if_neg hps, if_neg hps, foldSS_char _ _ _ _ (by norm_num),
      foldSE_char _ _ _ _ (by norm_num)]
    rfl

/-! ### Counting lemmas for the location accumulation -/

theorem lookup1_eq_zero_of_not_hasKey {m : List (String × Nat)} {L : String}
    (h : hasKeyA m L = false) : lookup1 m L = 0 := by
  induction m with
  | nil => rfl
  | cons p rest ih =>
    rw [hasKeyA, Bool.or_eq_false_iff] at h
    rw [lookup1, if_neg (by simpa using h.1)]
    exact ih h.2

theorem lookup1_append (m m' : List (String × Nat)) (L : String) :
    lookup1 (m ++ m') L = if hasKeyA m L then lookup1 m L else lookup1 m' L := by
  induction m with
  | nil => simp [lookup1, hasKeyA]
  | cons p rest ih =>
    by_cases hp : p.1 = L
    · simp [lookup1, hasKeyA, hp]
    · have hbeq : (p.1 == L) = false := by simpa using hp
      simp only [List.cons_append, lookup1, if_neg hp, hasKeyA, hbeq,
        Bool.false_or, List.append_eq]
      exact ih

theorem lookup1_mapinc (m : List (String × Nat)) (loc L : String) :
    lookup1 (m.map fun p => if p.1 = loc then (p.1, p.2 + 1) else p) L =
      lookup1 m L + (if loc = L ∧ hasKeyA m L then 1 else 0) := by
  induction m with
  | nil => simp [lookup1, hasKeyA]
  | cons p rest ih =>
    have hfst : ((if p.1 = loc then (p.1, p.2 + 1) else p) : String × Nat).1 = p.1 := by
      split <;> rfl
    by_cases hp : p.1 = L
    · by_cases hl : loc = L
      · have hploc : p.1 = loc := by rw [hp, hl]
        simp [lookup1, hasKeyA, hfst, hp, hploc, hl]
      · have hploc : ¬ p.1 = loc := fun hc => hl (by rw [← hc, hp])
        have hlsym : ¬ L = loc := fun hc => hl hc.symm
        simp [lookup1, hasKeyA, hfst, hp, hploc, hl, hlsym]
    · have hbeq : (p.1 == L) = false := by simpa using hp
      simp only [List.map_cons, lookup1, hfst, if_neg hp, hasKeyA, hbeq,
        Bool.false_or, ih]

theorem lookup1_incLoc (m : List (String × Nat)) (loc L : String) :
    lookup1 (incLoc m loc) L = lookup1 m L + (if loc = L then 1 else 0) := by
  unfold incLoc
  by_cases hk : hasKeyA m loc
  · rw [if_pos hk, lookup1_mapinc]
    by_cases hl : loc = L
    · rw [if_pos (by exact ⟨hl, hl ▸ hk⟩), if_pos hl]
    · rw [if_neg (by rintro ⟨hc, -⟩; exact hl hc), if_neg hl]
  · rw [if_neg hk, lookup1_append]
    by_cases hkL : hasKeyA m L
    · have hl : ¬ loc = L := fun hc => hk (hc ▸ hkL)
      rw [if_pos hkL, if_neg hl]
      simp
    · have hz : lookup1 m L = 0 := lookup1_eq_zero_of_not_hasKey (by simpa using hkL)
      rw [if_neg hkL, hz]
      by_cases hl : loc = L <;> simp [lookup1, hl]

/-- Counting effect of the inner `for loc_span in loc_span_list` loop. -/
theorem innerFold_count (ss se : Int) (loc L : String) :
    ∀ (spl : List (Nat × Nat)) (acc : Option (List (String × Nat))),
      lookupCountO
        (spl.foldl
          (fun a2 sp => if inWin ss se sp.1 then some (incLoc (a2.getD []) loc) else a2)
          acc) L =
      lookupCountO acc L +
        (if loc = L then spl.countP (fun sp => inWin ss se sp.1) else 0)
  | [], acc => by simp
  | sp :: rest, acc => by
    rw [List.foldl_cons]
    by_cases hsp : inWin ss se sp.1
    · rw [if_pos hsp, innerFold_count ss se loc L rest]
      have hacc : lookupCountO (some (incLoc (acc.getD []) loc)) L =
          lookupCountO acc L + (if loc = L then 1 else 0) := by
        unfold lookupCountO
        rw [Option.getD_some, lookup1_incLoc]
      rw [hacc, List.countP_cons, if_pos hsp]
      by_cases hl : loc = L <;> simp [hl] <;> omega
    · rw [if_neg hsp, innerFold_count ss se loc L rest, List.countP_cons,
        if_neg hsp]
      by_cases hl : loc = L <;> simp [hl]

/-- Counting effect of one full location scan (`addLocsForMention`): each
location mention whose start offset lies in `[ss, se)` contributes exactly 1
to the count of its surface text; all other counts are untouched. -/
theorem addLocs_count (location_dict : List (String × List (Nat × Nat)))
    (ss se : Int) (acc : Option (List (String × Nat))) (L : String) :
    lookupCountO (addLocsForMention location_dict ss se acc) L =
      lookupCountO acc L + matchCount location_dict L ss se := by
  induction location_dict generalizing acc with
  | nil => simp [addLocsForMention, matchCount]
  | cons p D ih =>
    unfold addLocsForMention at ih ⊢
    rw [List.foldl_cons, ih, innerFold_count]
    unfold matchCount
    rw [List.map_cons, List.sum_cons]
    by_cases hl : p.1 = L <;> simp [hl] <;> omega

/-- Counting effect of processing all mention spans of one person. -/
theorem spansFold_count (tokens : List TokenSpan)
    (location_dict : List (String × List (Nat × Nat))) (w : Nat) (L : String) :
    ∀ (spans : List (Nat × Nat)) (acc : Option (List (String × Nat))),
      lookupCountO (spans.foldl (processSpan tokens location_dict w) acc) L =
        lookupCountO acc L + mentionPairCount tokens location_dict w spans L
  | [], acc => by simp [mentionPairCount]
  | sp :: rest, acc => by
    rw [List.foldl_cons, spansFold_count tokens location_dict w L rest]
    unfold processSpan
    rw [addLocs_count]
    unfold mentionPairCount
    rw [List.map_cons, List.sum_cons]
    omega

/-- Counting effect of `processPerson`. -/
theorem processPerson_count (tokens : List TokenSpan)
    (location_dict : List (String × List (Nat × Nat))) (w : Nat)
    (pd : PersonData) (L : String) :
    lookupCountO (processPerson tokens location_dict w pd).location L =
      lookupCountO pd.location L +
        mentionPairCount tokens location_dict w pd.spans L := by
  unfold processPerson
  exact spansFold_count tokens location_dict w L pd.spans pd.location

/-! ### Locating the matching token indices -/

theorem find?_range'_eq_some (p : Nat → Bool) :
    ∀ (n s lo : Nat), s ≤ lo → lo < s + n → p lo = true →
      (∀ i, s ≤ i → i < lo → p i = false) →
      (List.range' s n).find? p = some lo
  | 0, s, lo, h1, h2, _, _ => absurd h2 (by omega)
  | n + 1, s, lo, h1, h2, hp, hmin => by
    rw [List.range'_succ s n 1]
    by_cases hs : s = lo
    · subst hs
      simp [List.find?_cons, hp]
    · have hslo : s < lo := lt_of_le_of_ne h1 hs
      have hps : p s = false := hmin s le_rfl hslo
      simp only [List.find?_cons, hps]
      exact find?_range'_eq_some p n (s + 1) lo hslo (by omega) hp
        (fun i hi1 hi2 => hmin i (by omega) hi2)

theorem pairwise_getD {R : TokenSpan → TokenSpan → Prop} {tokens : List TokenSpan}
    (h : List.Pairwise R tokens) {i j : Nat} (hij : i < j) (hj : j < tokens.length) :
    R (tokens.getD i d0) (tokens.getD j d0) := by
  have hi : i < tokens.length := lt_trans hij hj
  rw [List.getD_eq_getElem tokens d0 hi, List.getD_eq_getElem tokens d0 hj]
  exact List.pairwise_iff_getElem.mp h i j hi hj hij

theorem getLastD_eq_getD :
    ∀ (tokens : List TokenSpan), tokens ≠ [] →
      tokens.getLastD d0 = tokens.getD (tokens.length - 1) d0
  | [], h => absurd rfl h
  | [_], _ => rfl
  | a :: b :: t, _ => by
    have ih := getLastD_eq_getD (b :: t) (by simp)
    calc (a :: b :: t).getLastD d0
        = (b :: t).getLastD d0 := by simp [List.getLastD]
      _ = (b :: t).getD ((b :: t).length - 1) d0 := ih
      _ = (a :: b :: t).getD ((a :: b :: t).length - 1) d0 := by
          simp [List.getD_cons_succ]

theorem firstStartIdx_eq {tokens : List TokenSpan} {ps lo : Nat}
    (hpw : List.Pairwise (fun a b : TokenSpan => a.1.1 < b.1.1 ∧ a.1.2 < b.1.2) tokens)
    (hlo : lo < tokens.length) (hlos : tokStart tokens lo = ps) :
    firstStartIdx tokens ps = some lo := by
  unfold firstStartIdx
  rw [List.range_eq_range']
  apply find?_range'_eq_some
  · exact Nat.zero_le lo
  · omega
  · simpa using hlos
  · intro i _ hilo
    have hlt : tokStart tokens i < tokStart tokens lo :=
      (pairwise_getD hpw hilo hlo).1
    simp only [beq_eq_false_iff_ne, ne_eq]
    omega

theorem firstEndIdx_eq {tokens : List TokenSpan} {pe hi : Nat}
    (hpw : List.Pairwise (fun a b : TokenSpan => a.1.1 < b.1.1 ∧ a.1.2 < b.1.2) tokens)
    (hhi : hi < tokens.length) (hhie : tokEnd tokens hi = pe) :
    firstEndIdx tokens pe = some hi := by
  unfold firstEndIdx
  rw [List.range_eq_range']
  apply find?_range'_eq_some
  · exact Nat.zero_le hi
  · omega
  · simpa using hhie
  · intro i _ hihi
    have hlt : tokEnd tokens i < tokEnd tokens hi :=
      (pairwise_getD hpw hihi hhi).2
    simp only [beq_eq_false_iff_ne, ne_eq]
    omega

/-- Under a well-formed tokenization the lower search bound lands on the start
offset of the token `w` places before the mention's first token (clamped to
token index 0, whose start offset is 0). -/
theorem ssOf_eq {tokens : List TokenSpan} {w ps lo : Nat} (hwf : TokensWF tokens)
    (hlo : lo < tokens.length) (hlos : tokStart tokens lo = ps) :
    ssOf tokens w ps = (tokStart tokens (lo - w) : Int) := by
  have hne : tokens ≠ [] := List.ne_nil_of_length_pos (by omega)
  have h0 : tokStart tokens 0 = 0 := hwf.1 hne
  unfold ssOf
  by_cases hps : ps = 0
  · rw [if_pos hps]
    have hlo0 : lo = 0 := by
      by_contra hne0
      have hlt : tokStart tokens 0 < tokStart tokens lo :=
        (pairwise_getD hwf.2 (Nat.pos_of_ne_zero hne0) hlo).1
      omega
    subst hlo0
    rw [Nat.zero_sub, h0]
    rfl
  · rw [if_neg hps, firstStartIdx_eq hwf.2 hlo hlos]
    by_cases hlw : (lo : Int) - (w : Int) < 0
    · have hsub : lo - w = 0 := by omega
      simp only [if_pos hlw, hsub, h0]
      rfl
    · simp only [if_neg hlw]

/-- Under a well-formed tokenization the upper search bound lands on the end
offset of the token `w` places after the mention's last token (clamped to the
last token index). -/
theorem seOf_eq {tokens : List TokenSpan} {w pe hi : Nat} (hwf : TokensWF tokens)
    (hhi : hi < tokens.length) (hhie : tokEnd tokens hi = pe) :
    seOf tokens w pe = (tokEnd tokens (min (tokens.length - 1) (hi + w)) : Int) := by
  have hne : tokens ≠ [] := List.ne_nil_of_length_pos (by omega)
  unfold seOf
  rw [firstEndIdx_eq hwf.2 hhi hhie]
  by_cases hov : tokens.length ≤ hi + w
  · have hmin : min (tokens.length - 1) (hi + w) = tokens.length - 1 := by omega
    simp only [if_pos hov, hmin, getLastD_eq_getD tokens hne]
    rfl
  · have hmin : min (tokens.length - 1) (hi + w) = hi + w := by omega
    simp only [if_neg hov, hmin]

/-- C1: for a person mention whose start and end offsets coincide with token
boundaries (occupied token range `[lo, hi]`), the window is
`[start offset of token (lo - w), end offset of token (min (last, hi + w)))`
(Nat subtraction `lo - w` is exactly `max 0 (lo - w)`), and the location scan
then adds exactly 1 to a location's count for each of its mentions whose start
offset `s` satisfies `search_start ≤ s < search_end` (half-open). -/
theorem C1_window_and_count (tokens : List TokenSpan) (w : Nat)
    (location_dict : List (String × List (Nat × Nat)))
    (ps pe lo hi : Nat) (hwf : TokensWF tokens)
    (hlo : lo < tokens.length) (hlos : tokStart tokens lo = ps)
    (hhi : hi < tokens.length) (hhie : tokEnd tokens hi = pe) :
    computeWindow tokens w ps pe =
      ((tokStart tokens (lo - w) : Int),
       (tokEnd tokens (min (tokens.length - 1) (hi + w)) : Int)) ∧
    ∀ (acc : Option (List (String × Nat))) (L : String),
      lookupCountO
        (addLocsForMention location_dict (tokStart tokens (lo - w) : Int)
          (tokEnd tokens (min (tokens.length - 1) (hi + w)) : Int) acc) L =
      lookupCountO acc L +
        matchCount location_dict L (tokStart tokens (lo - w) : Int)
          (tokEnd tokens (min (tokens.length - 1) (hi + w)) : Int) := by
  constructor
  · rw [computeWindow_eq, ssOf_eq hwf hlo hlos, seOf_eq hwf hhi hhie]
  · intro acc L
    exact addLocs_count location_dict _ _ acc L

/-- Witness for C1: the document `"Alice was in Paris today"`, window 3,
mention `"Alice"` occupying token 0 with span `(0, 5)`. -/
theorem C1_window_and_count_witness :
    computeWindow
        [((0,5),"Alice"), ((6,9),"was"), ((10,12),"in"), ((13,18),"Paris"), ((19,23),"today")]
        3 0 5 = (0, 18) ∧
    lookupCountO
      (addLocsForMention [("Paris", [(13,18)])] 0 18 none) "Paris" = 1 := by
  have h := C1_window_and_count
    [((0,5),"Alice"), ((6,9),"was"), ((10,12),"in"), ((13,18),"Paris"), ((19,23),"today")]
    3 [("Paris", [(13,18)])] 0 5 0 0
    (by constructor
        · intro _; rfl
        · decide)
    (by decide) (by decide) (by decide) (by decide)
  constructor
  · exact h.1.trans (by decide)
  · have h2 := h.2 none "Paris"
    have e1 : (tokStart
        [((0,5),"Alice"), ((6,9),"was"), ((10,12),"in"), ((13,18),"Paris"), ((19,23),"today")]
        (0 - 3) : Int) = 0 := by decide
    have e2 : (tokEnd
        [((0,5),"Alice"), ((6,9),"was"), ((10,12),"in"), ((13,18),"Paris"), ((19,23),"today")]
        (min (([((0,5),"Alice"), ((6,9),"was"), ((10,12),"in"), ((13,18),"Paris"),
          ((19,23),"today")] : List TokenSpan).length - 1) (0 + 3)) : Int) = 18 := by decide
    rw [e1, e2] at h2
    rw [h2]
    decide

/-! ### Behaviour when a mention boundary matches no token boundary -/

/-- Token spans of the example document `"Alice was in Paris today"`. -/
def exTokens : List TokenSpan :=
  [((0,5),"Alice"), ((6,9),"was"), ((10,12),"in"), ((13,18),"Paris"), ((19,23),"today")]

/-- Example location dict: one mention of `"Paris"` at span `(13, 18)`. -/
def exLocs : List (String × List (Nat × Nat)) := [("Paris", [(13,18)])]

theorem inWin_end_sentinel (ss : Int) (s : Nat) : inWin ss (-1) s = false := by
  unfold inWin
  simp only [decide_eq_false_iff_not, not_and]
  intro _
  omega

theorem matchCount_end_sentinel (location_dict : List (String × List (Nat × Nat)))
    (L : String) (ss : Int) : matchCount location_dict L ss (-1) = 0 := by
  unfold matchCount
  apply List.sum_eq_zero
  intro x hx
  obtain ⟨p, -, hpx⟩ := List.mem_map.mp hx
  rw [← hpx]
  split
  · exact List.countP_eq_zero.mpr (fun sp _ => by simp [inWin_end_sentinel])
  · rfl

/-- Counterexample to C2 as stated: in `"Alice was in Paris today"`, the person
mention `(0, 4)` ends at no token end, so `search_end_span` keeps the `-1`
sentinel and the containment test rejects every location: the mention
contributes no locations at all (its window is empty), even though the
location `"Paris"` starts inside the document and a search widened to the
document edge (offset 23) would count it. -/
theorem C2_counterexample :
    (∀ i, i < exTokens.length → tokEnd exTokens i ≠ 4) ∧
    computeWindow exTokens 100 0 4 = (0, -1) ∧
    (processPerson exTokens exLocs 100 ⟨[(0, 4)], none⟩).location = none ∧
    inWin 0 (-1) 13 = false ∧
    inWin 0 23 13 = true := by
  refine ⟨by decide, by decide, by decide, by decide, by decide⟩

/-- C2 (amended): when no token range exactly starts at the mention's start
offset (and the start is not 0), `search_start_span` keeps the sentinel `-1`,
which lies below every document offset, so the start edge degrades to an
unbounded (wider than the document) lower bound; when no token range exactly
ends at the mention's end offset, `search_end_span` keeps the sentinel `-1`
and the containment test `ss ≤ s < -1` rejects every location, so that
mention contributes no location counts. Neither case fails: the computation
is total and other mentions are unaffected. -/
theorem C2_boundary_fallback (tokens : List TokenSpan) (w ps pe : Nat)
    (location_dict : List (String × List (Nat × Nat))) :
    (ps ≠ 0 → (∀ i, i < tokens.length → tokStart tokens i ≠ ps) →
      (computeWindow tokens w ps pe).1 = -1 ∧
      ∀ s : Nat, (computeWindow tokens w ps pe).1 ≤ (s : Int)) ∧
    ((∀ i, i < tokens.length → tokEnd tokens i ≠ pe) →
      (computeWindow tokens w ps pe).2 = -1 ∧
      ∀ (acc : Option (List (String × Nat))) (L : String),
        lookupCountO
          (addLocsForMention location_dict (computeWindow tokens w ps pe).1
            (computeWindow tokens w ps pe).2 acc) L = lookupCountO acc L) := by
  have hcw := computeWindow_eq tokens w ps pe
  constructor
  · intro hps hnone
    have hfind : firstStartIdx tokens ps = none := by
      unfold firstStartIdx
      rw [List.find?_eq_none]
      intro i hi
      simp only [beq_eq_false_iff_ne, ne_eq, Bool.not_eq_true]
      exact fun hc => hnone i (List.mem_range.mp hi) (by simpa using hc)
    have h1 : (computeWindow tokens w ps pe).1 = -1 := by
      rw [hcw]
      unfold ssOf
      rw [if_neg hps, hfind]
    refine ⟨h1, fun s => ?_⟩
    rw [h1]
    omega
  · intro hnone
    have hfind : firstEndIdx tokens pe = none := by
      unfold firstEndIdx
      rw [List.find?_eq_none]
      intro i hi
      simp only [beq_eq_false_iff_ne, ne_eq, Bool.not_eq_true]
      exact fun hc => hnone i (List.mem_range.mp hi) (by simpa using hc)
    have h2 : (computeWindow tokens w ps pe).2 = -1 := by
      rw [hcw]
      unfold seOf
      rw [hfind]
    refine ⟨h2, fun acc L => ?_⟩
    rw [addLocs_count, h2, matchCount_end_sentinel]
    omega

/-- Witness for the amended C2: no token of the example document starts at
offset 1 or ends at offset 4, and both window bounds keep the sentinel. -/
theorem C2_boundary_fallback_witness :
    (computeWindow exTokens 100 1 4).1 = -1 ∧
    (computeWindow exTokens 100 1 4).2 = -1 ∧
    lookupCountO
      (addLocsForMention exLocs (computeWindow exTokens 100 1 4).1
        (computeWindow exTokens 100 1 4).2 none) "Paris" = 0 := by
  have h := C2_boundary_fallback exTokens 100 1 4 exLocs
  have h1 := h.1 (by decide) (by decide)
  have h2 := h.2 (by decide)
  exact ⟨h1.1, h2.1, h2.2 none "Paris"⟩

/-! ### The stable descending sort of the result ranker -/

theorem insertCD_perm {α : Type} (count : α → Nat) (x : α) :
    ∀ l : List α, (insertCD count x l).Perm (x :: l)
  | [] => List.Perm.refl _
  | y :: ys => by
    rw [insertCD]
    split
    · exact List.Perm.refl _
    · exact ((insertCD_perm count x ys).cons y).trans (List.Perm.swap x y ys)

theorem sortCD_perm {α : Type} (count : α → Nat) :
    ∀ l : List α, (sortCD count l).Perm l
  | [] => List.Perm.refl _
  | x :: xs => by
    rw [sortCD, List.foldr_cons]
    exact (insertCD_perm count x _).trans (((sortCD_perm count xs)).cons x)

theorem insertCD_sorted {α : Type} (count : α → Nat) (x : α) :
    ∀ {l : List α}, l.Pairwise (fun a b => count b ≤ count a) →
      (insertCD count x l).Pairwise (fun a b => count b ≤ count a)
  | [], _ => List.pairwise_singleton _ x
  | y :: ys, h => by
    rw [insertCD]
    split
    · rename_i hyx
      refine List.Pairwise.cons ?_ h
      intro z hz
      rcases List.mem_cons.mp hz with hz | hz
      · subst hz; exact hyx
      · exact le_trans (List.rel_of_pairwise_cons h hz) hyx
    · rename_i hyx
      push_neg at hyx
      have hins := insertCD_sorted count x h.of_cons
      refine List.Pairwise.cons ?_ hins
      intro z hz
      have hz' : z ∈ x :: ys := (insertCD_perm count x ys).mem_iff.mp hz
      rcases List.mem_cons.mp hz' with hz' | hz'
      · subst hz'; exact le_of_lt hyx
      · exact List.rel_of_pairwise_cons h hz'

theorem sortCD_sorted {α : Type} (count : α → Nat) :
    ∀ l : List α, (sortCD count l).Pairwise (fun a b => count b ≤ count a)
  | [] => List.Pairwise.nil
  | x :: xs => insertCD_sorted count x (sortCD_sorted count xs)

/-- Stability of the insertion step: for any fixed count value `c`, inserting
keeps the subsequence of `c`-count elements in input order. -/
theorem insertCD_filter {α : Type} (count : α → Nat) (x : α) (c : Nat) :
    ∀ l : List α, (insertCD count x l).filter (fun a => count a == c) =
      ((x :: l).filter (fun a => count a == c))
  | [] => rfl
  | y :: ys => by
    rw [insertCD]
    by_cases hyx : count y ≤ count x
    · rw [if_pos hyx]
    · rw [if_neg hyx]
      push_neg at hyx
      have ih := insertCD_filter count x c ys
      by_cases hx : count x = c
      · by_cases hy : count y = c
        · exact absurd (hx.trans hy.symm) (by omega)
        · simp [List.filter_cons, hx, hy] at ih ⊢
          exact ih
      · by_cases hy : count y = c
        · simp [List.filter_cons, hx, hy] at ih ⊢
          exact ih
        · simp [List.filter_cons, hx, hy] at ih ⊢
          exact ih

/-- Stability of the whole sort: the `c`-count elements appear in their input
(first-encounter) order, for every count value `c`. -/
theorem sortCD_filter {α : Type} (count : α → Nat) (c : Nat) :
    ∀ l : List α, (sortCD count l).filter (fun a => count a == c) =
      l.filter (fun a => count a == c)
  | [] => rfl
  | x :: xs => by
    have h1 := insertCD_filter count x c (sortCD count xs)
    have h2 := sortCD_filter count c xs
    show (insertCD count x (sortCD count xs)).filter (fun a => count a == c) = _
    rw [h1, List.filter_cons, List.filter_cons, h2]

/-- C3: properties of the ranked output of `get_people_places_details`. The
output is a permutation of one record per accumulator entry, where each record
carries the person's name, `count = ` number of recorded mention spans, and
`associated_places` built from the person's location map (empty when the
`'location'` key is absent); the outer list is sorted by count descending and,
for each fixed count value, keeps the records in accumulator (first-encounter)
order — the stable tie-break; each `associated_places` list is likewise a
descending, stable sort of the location map. -/
theorem C3_ranked_output (people_dict : List (String × PersonData)) :
    (rankPeople people_dict).Perm (people_dict.map mkEntry) ∧
    (rankPeople people_dict).Pairwise (fun a b => b.count ≤ a.count) ∧
    (∀ c, (rankPeople people_dict).filter (fun e => e.count == c) =
      (people_dict.map mkEntry).filter (fun e => e.count == c)) ∧
    (∀ e ∈ rankPeople people_dict, ∃ p ∈ people_dict,
      e.name = p.1 ∧ e.count = p.2.spans.length ∧ e.associated_places = placesOf p.2) ∧
    (∀ p ∈ people_dict, ∀ m, p.2.location = some m →
      (placesOf p.2).Perm (m.map fun q => PlaceOut.mk q.1 q.2) ∧
      (placesOf p.2).Pairwise (fun a b => b.count ≤ a.count) ∧
      (∀ c, (placesOf p.2).filter (fun e => e.count == c) =
        (m.map fun q => PlaceOut.mk q.1 q.2).filter (fun e => e.count == c))) ∧
    (∀ p ∈ people_dict, p.2.location = none →
      mkEntry p ∈ rankPeople people_dict ∧ (mkEntry p).associated_places = []) := by
  have hperm : (rankPeople people_dict).Perm (people_dict.map mkEntry) :=
    sortCD_perm PersonOut.count (people_dict.map mkEntry)
  refine ⟨hperm, sortCD_sorted PersonOut.count _,
    fun c => sortCD_filter PersonOut.count c _, ?_, ?_, ?_⟩
  · intro e he
    have : e ∈ people_dict.map mkEntry := hperm.mem_iff.mp he
    obtain ⟨p, hp, hpe⟩ := List.mem_map.mp this
    exact ⟨p, hp, by rw [← hpe]; exact ⟨rfl, rfl, rfl⟩⟩
  · intro p _ m hm
    have hpl : placesOf p.2 = sortCD PlaceOut.count (m.map fun q => PlaceOut.mk q.1 q.2) := by
      unfold placesOf
      rw [hm]
    rw [hpl]
    exact ⟨sortCD_perm PlaceOut.count _, sortCD_sorted PlaceOut.count _,
      fun c => sortCD_filter PlaceOut.count c _⟩
  · intro p hp hnone
    constructor
    · exact hperm.mem_iff.mpr (List.mem_map_of_mem mkEntry hp)
    · unfold mkEntry placesOf
      rw [hnone]

/-! ### Monotonicity in the window size -/

theorem tokStart_mono {tokens : List TokenSpan} (hm : TokensMono tokens)
    {i j : Nat} (hij : i ≤ j) (hj : j < tokens.length) :
    tokStart tokens i ≤ tokStart tokens j := by
  rcases Nat.eq_or_lt_of_le hij with h | h
  · rw [h]
  · exact (pairwise_getD hm h hj).1

theorem tokEnd_mono {tokens : List TokenSpan} (hm : TokensMono tokens)
    {i j : Nat} (hij : i ≤ j) (hj : j < tokens.length) :
    tokEnd tokens i ≤ tokEnd tokens j := by
  rcases Nat.eq_or_lt_of_le hij with h | h
  · rw [h]
  · exact (pairwise_getD hm h hj).2

theorem ssOf_zero {tokens : List TokenSpan} {w ps : Nat} (h : ps = 0) :
    ssOf tokens w ps = 0 := by
  simp [ssOf, h]

theorem ssOf_none {tokens : List TokenSpan} {w ps : Nat} (h : ps ≠ 0)
    (hf : firstStartIdx tokens ps = none) : ssOf tokens w ps = -1 := by
  simp [ssOf, h, hf]

theorem ssOf_some {tokens : List TokenSpan} {w ps i : Nat} (h : ps ≠ 0)
    (hf : firstStartIdx tokens ps = some i) :
    ssOf tokens w ps =
      if (i : Int) - (w : Int) < 0 then 0 else (tokStart tokens (i - w) : Int) := by
  simp [ssOf, h, hf]

theorem seOf_none {tokens : List TokenSpan} {w pe : Nat}
    (hf : firstEndIdx tokens pe = none) : seOf tokens w pe = -1 := by
  simp [seOf, hf]

theorem seOf_some {tokens : List TokenSpan} {w pe i : Nat}
    (hf : firstEndIdx tokens pe = some i) :
    seOf tokens w pe =
      if tokens.length ≤ i + w then ((tokens.getLastD d0).1.2 : Int)
      else (tokEnd tokens (i + w) : Int) := by
  simp [seOf, hf]

/-- Widening the window can only move the lower search bound down. -/
theorem ssOf_anti {tokens : List TokenSpan} (hm : TokensMono tokens)
    {w w' : Nat} (hww : w ≤ w') (ps : Nat) :
    ssOf tokens w' ps ≤ ssOf tokens w ps := by
  by_cases hps : ps = 0
  · rw [ssOf_zero hps, ssOf_zero hps]
  · cases hfind : firstStartIdx tokens ps with
    | none => rw [ssOf_none hps hfind, ssOf_none hps hfind]
    | some i =>
      have hi : i < tokens.length :=
        List.mem_range.mp (List.mem_of_find?_eq_some hfind)
      rw [ssOf_some hps hfind, ssOf_some hps hfind]
      by_cases h1 : (i : Int) - (w' : Int) < 0
      · rw [if_pos h1]
        split <;> positivity
      · rw [if_neg h1, if_neg (by omega)]
        have hsub : i - w' ≤ i - w := by omega
        exact_mod_cast tokStart_mono hm hsub (by omega)

/-- Widening the window can only move the upper search bound up. -/
theorem seOf_mono {tokens : List TokenSpan} (hm : TokensMono tokens)
    {w w' : Nat} (hww : w ≤ w') (pe : Nat) :
    seOf tokens w pe ≤ seOf tokens w' pe := by
  cases hfind : firstEndIdx tokens pe with
  | none => rw [seOf_none hfind, seOf_none hfind]
  | some i =>
    have hi : i < tokens.length :=
      List.mem_range.mp (List.mem_of_find?_eq_some hfind)
    have hne : tokens ≠ [] := List.ne_nil_of_length_pos (by omega)
    rw [seOf_some hfind, seOf_some hfind]
    by_cases h1 : tokens.length ≤ i + w
    · rw [if_pos h1, if_pos (by omega)]
    · rw [if_neg h1]
      by_cases h2 : tokens.length ≤ i + w'
      · rw [if_pos h2, getLastD_eq_getD tokens hne]
        exact_mod_cast tokEnd_mono hm (by omega) (by omega)
      · rw [if_neg h2]
        exact_mod_cast tokEnd_mono hm (by omega) (by omega)

theorem inWin_mono {ss ss' se se' : Int} (hss : ss' ≤ ss) (hse : se ≤ se')
    {s : Nat} (h : inWin ss se s = true) : inWin ss' se' s = true := by
  unfold inWin at h ⊢
  rw [decide_eq_true_iff] at h
  rw [decide_eq_true_iff]
  omega

theorem matchCount_mono (location_dict : List (String × List (Nat × Nat)))
    (L : String) {ss ss' se se' : Int} (hss : ss' ≤ ss) (hse : se ≤ se') :
    matchCount location_dict L ss se ≤ matchCount location_dict L ss' se' := by
  unfold matchCount
  apply List.sum_le_sum
  intro p _
  split
  · exact List.countP_mono_left (fun sp _ h => inWin_mono hss hse h)
  · exact le_refl 0

/-- C4: with a fixed document and entity sets, a strictly larger window size
admits every location mention the smaller one admits (per person mention), and
therefore every accumulated per-location count is monotone in the window size.
`accumulate_locations_near_person` processes each person entry with
`processPerson`, restated here as the last conjunct. -/
theorem C4_window_monotone (tokens : List TokenSpan) (hm : TokensMono tokens)
    (w w' : Nat) (hww : w < w') :
    (∀ ps pe s,
      inWin (computeWindow tokens w ps pe).1 (computeWindow tokens w ps pe).2 s = true →
      inWin (computeWindow tokens w' ps pe).1 (computeWindow tokens w' ps pe).2 s = true) ∧
    (∀ (location_dict : List (String × List (Nat × Nat))) (pd : PersonData) (L : String),
      lookupCountO (processPerson tokens location_dict w pd).location L ≤
      lookupCountO (processPerson tokens location_dict w' pd).location L) ∧
    (∀ (people_dict : List (String × PersonData))
        (location_dict : List (String × List (Nat × Nat))),
      accumulate_locations_near_person people_dict location_dict tokens w =
        people_dict.map (fun p => (p.1, processPerson tokens location_dict w p.2))) := by
  have hwle : w ≤ w' := le_of_lt hww
  have hwin : ∀ ps pe,
      (computeWindow tokens w' ps pe).1 ≤ (computeWindow tokens w ps pe).1 ∧
      (computeWindow tokens w ps pe).2 ≤ (computeWindow tokens w' ps pe).2 := by
    intro ps pe
    rw [computeWindow_eq, computeWindow_eq]
    exact ⟨ssOf_anti hm hwle ps, seOf_mono hm hwle pe⟩
  refine ⟨?_, ?_, fun _ _ => rfl⟩
  · intro ps pe s h
    exact inWin_mono (hwin ps pe).1 (hwin ps pe).2 h
  · intro location_dict pd L
    rw [processPerson_count, processPerson_count]
    have hmc : mentionPairCount tokens location_dict w pd.spans L ≤
        mentionPairCount tokens location_dict w' pd.spans L := by
      unfold mentionPairCount
      apply List.sum_le_sum
      intro sp _
      exact matchCount_mono location_dict L (hwin sp.1 sp.2).1 (hwin sp.1 sp.2).2
    omega

/-- Witness for C4: in the example document, `"Alice"`'s `"Paris"` count at
window 1 (which is 0) is at most its count at window 3 (which is 1). -/
theorem C4_window_monotone_witness :
    lookupCountO (processPerson exTokens exLocs 1 ⟨[(0,5)], none⟩).location "Paris" ≤
    lookupCountO (processPerson exTokens exLocs 3 ⟨[(0,5)], none⟩).location "Paris" :=
  (C4_window_monotone exTokens (by unfold TokensMono; decide) 1 3 (by decide)).2.1
    exLocs ⟨[(0,5)], none⟩ "Paris"

/-! ### Per-pair counting and the empty-input cases -/

/-- C5: the aggregator's count for a (person, location) surface-text pair is
the number of (person mention, location mention) pairs whose containment test
succeeds: the person's entry in the output accumulator is its `processPerson`
image, and the count added on top of the incoming accumulator equals
`mentionPairCount`, the sum over the person's mention spans of the number of
location mentions inside that span's window — so a location lying in the
windows of two mentions of the same person is counted twice. -/
theorem C5_pair_counting (tokens : List TokenSpan)
    (people_dict : List (String × PersonData))
    (location_dict : List (String × List (Nat × Nat))) (w : Nat)
    (name : String) (pd : PersonData) (hmem : (name, pd) ∈ people_dict) (L : String) :
    (name, processPerson tokens location_dict w pd) ∈
      accumulate_locations_near_person people_dict location_dict tokens w ∧
    lookupCountO (processPerson tokens location_dict w pd).location L =
      lookupCountO pd.location L + mentionPairCount tokens location_dict w pd.spans L := by
  constructor
  · exact List.mem_map_of_mem _ hmem
  · exact processPerson_count tokens location_dict w pd L

/-- Witness for C5, realising end-to-end scenario 3: `"Alice"` mentioned
twice (spans `(0,5)` and `(19,23)`), `"Paris"` inside both windows at
window size 3, giving Paris count 2. -/
theorem C5_pair_counting_witness :
    (("Alice", processPerson exTokens exLocs 3 ⟨[(0,5), (19,23)], none⟩) ∈
      accumulate_locations_near_person [("Alice", ⟨[(0,5), (19,23)], none⟩)]
        exLocs exTokens 3 ∧
    lookupCountO (processPerson exTokens exLocs 3 ⟨[(0,5), (19,23)], none⟩).location "Paris" =
      lookupCountO (none : Option (List (String × Nat))) "Paris" +
        mentionPairCount exTokens exLocs 3 [(0,5), (19,23)] "Paris") ∧
    lookupCountO (processPerson exTokens exLocs 3 ⟨[(0,5), (19,23)], none⟩).location "Paris" = 2 := by
  constructor
  · exact C5_pair_counting exTokens [("Alice", ⟨[(0,5), (19,23)], none⟩)] exLocs 3
      "Alice" ⟨[(0,5), (19,23)], none⟩ (List.mem_singleton.mpr rfl) "Paris"
  · decide

theorem spansFold_nil (tokens : List TokenSpan) (w : Nat) :
    ∀ (spans : List (Nat × Nat)) (acc : Option (List (String × Nat))),
      spans.foldl (processSpan tokens [] w) acc = acc
  | [], _ => rfl
  | _ :: rest, acc => spansFold_nil tokens w rest acc

/-- With an empty location dict, a person entry passes through unchanged:
no `'location'` key is ever created. -/
theorem processPerson_nil_locs (tokens : List TokenSpan) (w : Nat)
    (pd : PersonData) : processPerson tokens [] w pd = pd := by
  unfold processPerson
  rw [spansFold_nil]

theorem accumulate_nil_locs (people_dict : List (String × PersonData))
    (tokens : List TokenSpan) (w : Nat) :
    accumulate_locations_near_person people_dict [] tokens w = people_dict := by
  unfold accumulate_locations_near_person
  have h : ∀ p ∈ people_dict,
      (p.1, processPerson tokens [] w p.2) = p := by
    intro p _
    rw [processPerson_nil_locs]
  rw [List.map_congr_left h, List.map_id']

/-- C7: an empty persons mapping yields an empty people list, and an empty
locations mapping leaves every person in the output with its mention count
and an empty `associated_places` (no `'location'` section is created for any
person); neither case is an error. The second part assumes, as
`extract_person_location_entities` guarantees, that the incoming accumulator
has no `'location'` sections yet. -/
theorem C7_empty_inputs (token_spans : List TokenSpan) (w : Nat) :
    (∀ location_dict,
      rankPeople (accumulate_locations_near_person [] location_dict token_spans w) = []) ∧
    (∀ people_dict : List (String × PersonData),
      (∀ p ∈ people_dict, p.2.location = none) →
      (∀ q ∈ accumulate_locations_near_person people_dict [] token_spans w,
        q.2.location = none) ∧
      (rankPeople (accumulate_locations_near_person people_dict [] token_spans w)).length =
        people_dict.length ∧
      (∀ e ∈ rankPeople (accumulate_locations_near_person people_dict [] token_spans w),
        e.associated_places = []) ∧
      (∀ p ∈ people_dict,
        ∃ e ∈ rankPeople (accumulate_locations_near_person people_dict [] token_spans w),
          e.name = p.1 ∧ e.count = p.2.spans.length ∧ e.associated_places = [])) := by
  constructor
  · intro location_dict
    rfl
  · intro people_dict hnone
    rw [accumulate_nil_locs]
    have hperm : (rankPeople people_dict).Perm (people_dict.map mkEntry) :=
      sortCD_perm PersonOut.count (people_dict.map mkEntry)
    have hplaces : ∀ p ∈ people_dict, (mkEntry p).associated_places = [] := by
      intro p hp
      unfold mkEntry placesOf
      rw [hnone p hp]
    refine ⟨hnone, ?_, ?_, ?_⟩
    · rw [hperm.length_eq, List.length_map]
    · intro e he
      obtain ⟨p, hp, hpe⟩ := List.mem_map.mp (hperm.mem_iff.mp he)
      rw [← hpe]
      exact hplaces p hp
    · intro p hp
      refine ⟨mkEntry p, hperm.mem_iff.mpr (List.mem_map_of_mem mkEntry hp),
        rfl, rfl, hplaces p hp⟩

/-! ### Determinism and independence of the per-mention window -/

/-- C8: the aggregation-plus-ranking pipeline is a pure function — equal
inputs give identical outputs — and a mention's contribution depends only on
its own span, the token sequence, the location dict and the window size:
the count delta of processing span `sp` is the same from any accumulator
state (second conjunct), and the accumulated counts of a person are invariant
under permuting the order in which that person's mention spans are processed
(third conjunct). -/
theorem C8_determinism (tokens tokens' : List TokenSpan)
    (people_dict people_dict' : List (String × PersonData))
    (location_dict location_dict' : List (String × List (Nat × Nat))) (w w' : Nat)
    (heq : tokens = tokens' ∧ people_dict = people_dict' ∧
      location_dict = location_dict' ∧ w = w') :
    rankPeople (accumulate_locations_near_person people_dict location_dict tokens w) =
      rankPeople
        (accumulate_locations_near_person people_dict' location_dict' tokens' w') ∧
    (∀ (sp : Nat × Nat) (acc acc' : Option (List (String × Nat))) (L : String),
      lookupCountO (processSpan tokens location_dict w acc sp) L + lookupCountO acc' L =
      lookupCountO (processSpan tokens location_dict w acc' sp) L + lookupCountO acc L) ∧
    (∀ (pd : PersonData) (spans' : List (Nat × Nat)), pd.spans.Perm spans' → ∀ L,
      lookupCountO (processPerson tokens location_dict w pd).location L =
      lookupCountO
        (processPerson tokens location_dict w ⟨spans', pd.location⟩).location L) := by
  obtain ⟨h1, h2, h3, h4⟩ := heq
  subst h1; subst h2; subst h3; subst h4
  refine ⟨rfl, ?_, ?_⟩
  · intro sp acc acc' L
    have ha := addLocs_count location_dict (computeWindow tokens w sp.1 sp.2).1
      (computeWindow tokens w sp.1 sp.2).2 acc L
    have hb := addLocs_count location_dict (computeWindow tokens w sp.1 sp.2).1
      (computeWindow tokens w sp.1 sp.2).2 acc' L
    unfold processSpan
    omega
  · intro pd spans' hp L
    rw [processPerson_count, processPerson_count]
    have hsum : mentionPairCount tokens location_dict w pd.spans L =
        mentionPairCount tokens location_dict w spans' L := by
      unfold mentionPairCount
      exact (hp.map _).sum_eq
    rw [hsum]

/-- Witness for C8 at the example document and entities. -/
theorem C8_determinism_witness :
    rankPeople
      (accumulate_locations_near_person [("Alice", ⟨[(0,5)], none⟩)] exLocs exTokens 3) =
    rankPeople
      (accumulate_locations_near_person [("Alice", ⟨[(0,5)], none⟩)] exLocs exTokens 3) :=
  (C8_determinism exTokens exTokens [("Alice", ⟨[(0,5)], none⟩)]
    [("Alice", ⟨[(0,5)], none⟩)] exLocs exLocs 3 3 ⟨rfl, rfl, rfl, rfl⟩).1

/-! ### The request/response boundary -/

theorem dictGet_append_single (d : List (String × FieldValue)) (k k' : String)
    (v : FieldValue) (h : k ≠ k') :
    dictGet (d ++ [(k', v)]) k = dictGet d k := by
  induction d with
  | nil => simp [dictGet, Ne.symm h]
  | cons p rest ih =>
    rw [List.cons_append, dictGet, dictGet]
    split
    · rfl
    · exact ih

/-- Counterexample to C9 as stated: a caller-supplied extra metadata field
named `"people"` is overwritten by the computed result (here the empty people
list, with an NLP stub returning no tokens and no entities), not echoed
unchanged. -/
theorem C9_counterexample :
    get_all_people_details (fun _ => Except.ok "doc") (fun _ => []) (fun _ => [])
        ⟨"http://x", [("people", FieldValue.str "keep")]⟩ =
      Except.ok [("url", FieldValue.str "http://x"), ("people", FieldValue.people [])] ∧
    dictGet [("url", FieldValue.str "http://x"), ("people", FieldValue.people [])]
        "people" ≠ some (FieldValue.str "keep") := by
  exact ⟨rfl, by decide⟩

/-- C9 (amended): for a successful fetch, every caller-supplied request field
except one named `"people"` appears unchanged in the response — the response
dict is exactly the request dict with the computed `people` field appended —
and a caller-supplied `"people"` field would be overwritten (counterexample).
-/
theorem C9_echo (fetch : String → Except CommonResponse String)
    (nlpTokens : String → List TokenSpan) (nlpEnts : String → List Entity)
    (req : PersonInfoRequest) (text : String)
    (hfetch : fetch req.url = Except.ok text)
    (hnp : hasKeyA req.extras "people" = false) :
    get_all_people_details fetch nlpTokens nlpEnts req =
      Except.ok (reqDict req ++
        [("people", FieldValue.people
          (get_people_places_details (nlpTokens text) (nlpEnts text) 100))]) ∧
    ∀ k, k ≠ "people" →
      dictGet (reqDict req ++
        [("people", FieldValue.people
          (get_people_places_details (nlpTokens text) (nlpEnts text) 100))]) k =
      dictGet (reqDict req) k := by
  have hkey : hasKeyA (reqDict req) "people" = false := by
    unfold reqDict hasKeyA
    rw [hnp, Bool.or_false]
    rfl
  constructor
  · unfold get_all_people_details dictSet
    rw [hfetch, hkey]
    simp
  · intro k hk
    exact dictGet_append_single _ k "people" _ hk

/-- Witness for the amended C9: a request with an `"author"` metadata field is
echoed in full, with the computed people list appended. -/
theorem C9_echo_witness :
    get_all_people_details (fun _ => Except.ok "doc") (fun _ => []) (fun _ => [])
        ⟨"http://x", [("author", FieldValue.str "Bram Stoker")]⟩ =
      Except.ok [("url", FieldValue.str "http://x"),
        ("author", FieldValue.str "Bram Stoker"), ("people", FieldValue.people [])] := by
  have h := (C9_echo (fun _ => Except.ok "doc") (fun _ => []) (fun _ => [])
    ⟨"http://x", [("author", FieldValue.str "Bram Stoker")]⟩ "doc" rfl (by decide)).1
  exact h

/-! ### The aggregator's frame: person keys and spans are untouched -/

theorem foldl_preserve {α β : Type} (P : α → Prop) (f : α → β → α)
    (hstep : ∀ a b, P a → P (f a b)) :
    ∀ (l : List β) (a : α), P a → P (l.foldl f a)
  | [], _, ha => ha
  | b :: rest, a, ha => foldl_preserve P f hstep rest (f a b) (hstep a b ha)

theorem hasKeyA_map_fst {α : Type} (f : String × α → String × α)
    (hf : ∀ p, (f p).1 = p.1) (L : String) :
    ∀ m : List (String × α), hasKeyA (m.map f) L = hasKeyA m L
  | [] => rfl
  | p :: rest => by
    rw [List.map_cons, hasKeyA, hasKeyA, hf p, hasKeyA_map_fst f hf L rest]

theorem hasKeyA_append {α : Type} (m m' : List (String × α)) (L : String) :
    hasKeyA (m ++ m') L = (hasKeyA m L || hasKeyA m' L) := by
  induction m with
  | nil => simp [hasKeyA]
  | cons p rest ih =>
    rw [List.cons_append, hasKeyA, hasKeyA, ih, Bool.or_assoc]

theorem hasKeyA_incLoc {m : List (String × Nat)} {loc L : String}
    (h : hasKeyA m L = true) : hasKeyA (incLoc m loc) L = true := by
  unfold incLoc
  split
  · rw [hasKeyA_map_fst]
    · exact h
    · intro p
      split <;> rfl
  · rw [hasKeyA_append, h, Bool.true_or]

theorem addLocs_preserves_key (location_dict : List (String × List (Nat × Nat)))
    (ss se : Int) (L : String) (acc : Option (List (String × Nat)))
    (h : hasKeyA (acc.getD []) L = true) :
    hasKeyA ((addLocsForMention location_dict ss se acc).getD []) L = true := by
  unfold addLocsForMention
  refine foldl_preserve (fun a => hasKeyA (a.getD []) L = true) _ ?_ location_dict acc h
  intro a p ha
  refine foldl_preserve (fun a2 => hasKeyA (a2.getD []) L = true) _ ?_ p.2 a ha
  intro a2 sp ha2
  split
  · rw [Option.getD_some]
    exact hasKeyA_incLoc ha2
  · exact ha2

/-- C10: `accumulate_locations_near_person` is a frame on everything except
the `'location'` sub-dicts: the list of person keys and each person's
`'spans'` list come out exactly as they went in (first conjunct, covering
order, additions and removals), and within a person's `'location'` sub-dict
counts never decrease and existing location keys are never dropped — the only
changes are creating the sub-dict or incrementing counts inside it. -/
theorem C10_frame (people_dict : List (String × PersonData))
    (location_dict : List (String × List (Nat × Nat)))
    (token_spans : List TokenSpan) (w : Nat) :
    (accumulate_locations_near_person people_dict location_dict token_spans w).map
        (fun p => (p.1, p.2.spans)) =
      people_dict.map (fun p => (p.1, p.2.spans)) ∧
    (∀ p ∈ people_dict, ∀ L,
      lookupCountO p.2.location L ≤
        lookupCountO (processPerson token_spans location_dict w p.2).location L) ∧
    (∀ p ∈ people_dict, ∀ L, hasKeyA (p.2.location.getD []) L = true →
      hasKeyA ((processPerson token_spans location_dict w p.2).location.getD []) L
        = true) := by
  refine ⟨?_, ?_, ?_⟩
  · unfold accumulate_locations_near_person
    rw [List.map_map]
    rfl
  · intro p _ L
    rw [processPerson_count]
    omega
  · intro p _ L h
    unfold processPerson
    simp only
    refine foldl_preserve (fun a => hasKeyA (a.getD []) L = true) _ ?_ p.2.spans
      p.2.location h
    intro a sp ha
    unfold processSpan
    exact addLocs_preserves_key location_dict _ _ L a ha

/-! ### The spans produced by get_all_tokens -/

/-- Length of a token's `text_with_ws`. -/
def twsLen (t : SpacyTok) : Nat := (t.text ++ t.ws).length

/-- Total `text_with_ws` length of the first `i` tokens. -/
def prefLen (toks : List SpacyTok) (i : Nat) : Nat :=
  ((toks.take i).map twsLen).sum

/-- Default output span (never observed: accesses are guarded). -/
def dI : (Int × Int) × String := ((0, 0), "")

/-- Default spacy token (never observed). -/
def dTok : SpacyTok := ⟨"", ""⟩

theorem prefLen_zero (toks : List SpacyTok) : prefLen toks 0 = 0 := rfl

theorem prefLen_cons_succ (t : SpacyTok) (ts : List SpacyTok) (i : Nat) :
    prefLen (t :: ts) (i + 1) = twsLen t + prefLen ts i := by
  simp [prefLen, List.take_succ_cons]

theorem prefLen_succ_of_lt :
    ∀ (toks : List SpacyTok) (i : Nat), i < toks.length →
      prefLen toks (i + 1) = prefLen toks i + twsLen (toks.getD i dTok)
  | [], i, h => absurd h (by simp)
  | t :: ts, 0, _ => by
    rw [prefLen_cons_succ, prefLen_zero, prefLen_zero]
    simp [List.getD_cons_zero]
  | t :: ts, i + 1, h => by
    rw [prefLen_cons_succ, prefLen_cons_succ,
      prefLen_succ_of_lt ts i (by simpa using h), List.getD_cons_succ]
    omega

theorem prefLen_le_succ (toks : List SpacyTok) (i : Nat) :
    prefLen toks i ≤ prefLen toks (i + 1) := by
  by_cases h : i < toks.length
  · rw [prefLen_succ_of_lt toks i h]
    omega
  · unfold prefLen
    rw [List.take_of_length_le (by omega), List.take_of_length_le (by omega)]

theorem prefLen_mono (toks : List SpacyTok) {i j : Nat} (hij : i ≤ j) :
    prefLen toks i ≤ prefLen toks j := by
  induction j with
  | zero =>
    have h0 : i = 0 := by omega
    rw [h0]
  | succ j ih =>
    by_cases h : i ≤ j
    · exact le_trans (ih h) (prefLen_le_succ toks j)
    · have h1 : i = j + 1 := by omega
      rw [h1]

theorem prefLen_length (toks : List SpacyTok) :
    prefLen toks toks.length = (toks.map twsLen).sum := by
  unfold prefLen
  rw [List.take_length]

theorem tokensGo_length : ∀ (toks : List SpacyTok) (prev : Int),
    (tokensGo prev toks).length = toks.length
  | [], _ => rfl
  | t :: ts, prev => by
    rw [tokensGo, List.length_cons, List.length_cons, tokensGo_length ts]

/-- Closed form of the spans produced by `get_all_tokens`'s loop: starting
from `prev`, the `i`-th token's span is
`(prev + 1 + prefLen i, prev + prefLen (i+1))`. -/
theorem tokensGo_getD : ∀ (toks : List SpacyTok) (prev : Int) (i : Nat),
    i < toks.length →
    (tokensGo prev toks).getD i dI =
      ((prev + 1 + (prefLen toks i : Int), prev + (prefLen toks (i + 1) : Int)),
        (toks.getD i dTok).text)
  | [], _, i, h => absurd h (by simp)
  | t :: ts, prev, 0, _ => by
    rw [tokensGo, List.getD_cons_zero, prefLen_cons_succ]
    rw [prefLen_zero, prefLen_zero, List.getD_cons_zero]
    have : ((t.text ++ t.ws).length : Int) = (twsLen t : Int) := by rw [twsLen]
    rw [this]
    push_cast
    norm_num
  | t :: ts, prev, i + 1, h => by
    rw [tokensGo, List.getD_cons_succ,
      tokensGo_getD ts (prev + ((t.text ++ t.ws).length : Int)) i (by simpa using h),
      List.getD_cons_succ, prefLen_cons_succ, prefLen_cons_succ]
    have : ((t.text ++ t.ws).length : Int) = (twsLen t : Int) := by rw [twsLen]
    rw [this]
    push_cast
    ring_nf

/-- Closed form for `get_all_tokens` itself (`prev` starts at `-1`): the
`i`-th span is `(prefLen i, prefLen (i+1) - 1)`. -/
theorem get_all_tokens_getD (toks : List SpacyTok) (i : Nat) (h : i < toks.length) :
    (get_all_tokens toks).getD i dI =
      (((prefLen toks i : Int), (prefLen toks (i + 1) : Int) - 1),
        (toks.getD i dTok).text) := by
  unfold get_all_tokens
  rw [tokensGo_getD toks (-1) i h]
  push_cast
  ring_nf

/-- Counterexample to C6 as stated: for the two tokens `"Hello"` and `"!"`
(no trailing whitespace), the produced spans are `(0,4)` and `(5,5)`.
Token 0's end (4) is not token 1's start minus token 0's trailing-whitespace
length (5 - 0 = 5), and read as half-open intervals `[start, end)` the spans
do not cover the document: offset 4 (the `"o"`, with document length 6) lies
in no span. The spans are inclusive of their last character, one short of the
half-open convention. -/
theorem C6_counterexample :
    get_all_tokens [⟨"Hello", ""⟩, ⟨"!", ""⟩] = [((0,4),"Hello"), ((5,5),"!")] ∧
    ((get_all_tokens [⟨"Hello", ""⟩, ⟨"!", ""⟩]).getD 0 dI).1.2 ≠
      ((get_all_tokens [⟨"Hello", ""⟩, ⟨"!", ""⟩]).getD 1 dI).1.1 -
        ((("" : String).length : Int)) ∧
    (∀ p ∈ get_all_tokens [⟨"Hello", ""⟩, ⟨"!", ""⟩],
      ¬(p.1.1 ≤ (4 : Int) ∧ (4 : Int) < p.1.2)) ∧
    (([⟨"Hello", ""⟩, ⟨"!", ""⟩] : List SpacyTok).map twsLen).sum = 6 := by
  refine ⟨rfl, by decide, by decide, rfl⟩

/-- C6 (amended): for tokens with nonempty `text_with_ws` (as spacy produces),
`get_all_tokens` emits one span per token, in document order, non-overlapping,
starting at offset 0, and tiling the document as closed (inclusive) intervals:
`end_i = start_i + |text_with_ws_i| - 1`, `start_{i+1} = end_i + 1`, and the
last end offset is the total document length minus 1. The half-open reading
of C6 and its `end = next start - trailing whitespace` formula are off by
one: each span is inclusive of the last character of its `text_with_ws`. -/
theorem C6_token_spans (toks : List SpacyTok)
    (hne : ∀ t ∈ toks, 1 ≤ (t.text ++ t.ws).length) :
    (get_all_tokens toks).length = toks.length ∧
    (toks ≠ [] → ((get_all_tokens toks).getD 0 dI).1.1 = 0) ∧
    (∀ i, i + 1 < toks.length →
      ((get_all_tokens toks).getD (i + 1) dI).1.1 =
        ((get_all_tokens toks).getD i dI).1.2 + 1) ∧
    (∀ i, i < toks.length →
      ((get_all_tokens toks).getD i dI).1.2 =
        ((get_all_tokens toks).getD i dI).1.1 + (twsLen (toks.getD i dTok) : Int) - 1) ∧
    (∀ i, i < toks.length →
      ((get_all_tokens toks).getD i dI).1.1 ≤ ((get_all_tokens toks).getD i dI).1.2) ∧
    (∀ i j, i < j → j < toks.length →
      ((get_all_tokens toks).getD i dI).1.2 < ((get_all_tokens toks).getD j dI).1.1) ∧
    (toks ≠ [] →
      ((get_all_tokens toks).getD (toks.length - 1) dI).1.2 =
        ((toks.map twsLen).sum : Int) - 1) := by
  refine ⟨by unfold get_all_tokens; exact tokensGo_length toks (-1), ?_, ?_, ?_, ?_, ?_, ?_⟩
  · intro hne0
    have hlen : 0 < toks.length := List.length_pos.mpr hne0
    rw [get_all_tokens_getD toks 0 hlen, prefLen_zero]
    rfl
  · intro i h
    rw [get_all_tokens_getD toks i (by omega), get_all_tokens_getD toks (i + 1) h]
    dsimp only
    omega
  · intro i h
    rw [get_all_tokens_getD toks i h, prefLen_succ_of_lt toks i h]
    push_cast
    ring_nf
  · intro i h
    rw [get_all_tokens_getD toks i h, prefLen_succ_of_lt toks i h]
    have h1 : 1 ≤ twsLen (toks.getD i dTok) := by
      apply hne
      rw [List.getD_eq_getElem toks dTok h]
      exact List.getElem_mem h
    simp only
    omega
  · intro i j hij hj
    rw [get_all_tokens_getD toks i (by omega), get_all_tokens_getD toks j hj]
    have hmono : prefLen toks (i + 1) ≤ prefLen toks j := prefLen_mono toks (by omega)
    simp only
    omega
  · intro hne0
    have hlen : 0 < toks.length := List.length_pos.mpr hne0
    rw [get_all_tokens_getD toks (toks.length - 1) (by omega)]
    have : toks.length - 1 + 1 = toks.length := by omega
    rw [this, prefLen_length]

/-- Witness for the amended C6 on the two tokens `"Alice "` and `"Paris"`:
spans `(0, 5)` and `(6, 10)` — inclusive, adjacent, starting at 0, tiling a
document of total length 11. -/
theorem C6_token_spans_witness :
    ((get_all_tokens [⟨"Alice", " "⟩, ⟨"Paris", ""⟩]).getD 1 dI).1.1 =
      ((get_all_tokens [⟨"Alice", " "⟩, ⟨"Paris", ""⟩]).getD 0 dI).1.2 + 1 :=
  (C6_token_spans [⟨"Alice", " "⟩, ⟨"Paris", ""⟩] (by decide)).2.2.1 0 (by decide)
